import Mathlib

/-!
# Verification of the comparative-genomics pipeline orchestration core

A shallow embedding of the pipeline orchestration code of
`comparative_genomics_pipeline` and proofs about it:

* `util/file_util.py` — `validate_genes_config` over parsed JSON values;
* `__main__.py` — `collect_orthologous_sequences` (per-ortholog fallback,
  per-gene aggregation, stage result), the two bounded poll loops of
  `align_sequences_msa` and `generate_phylogenetic_trees`, and the
  stage-sequencing of `async_main`;
* `service/biopython_service.py` — the per-column conservation scores of
  `compute_conservation_scores` (Shannon entropies and consensus residue);
* `visualization/scientific_plots.py` — the substring-based variant
  classification of `_get_dynamic_variant_classifications`.

Python strings are `List Char`; parsed JSON documents are the inductive
`JVal`; network and filesystem effects are oracle parameters; machine
floats are modelled by exact real arithmetic (the claims settled here are
exact at the float level as well).  Python's `set` iteration order — which
is *not* a function of the set's contents across interpreter runs (string
hash randomisation) — is modelled by an explicit enumeration parameter
constrained by `validEnum`.
-/

namespace CGP

/-- A parsed JSON value, as produced by Python's `json.load`.
Objects keep insertion order; configs are assumed to have distinct keys,
so first-match association lookup models `dict.__getitem__`/`dict.get`. -/
inductive JVal where
  | jnull
  | jbool (b : Bool)
  | jnum (n : Int)
  | jstr (s : List Char)
  | jarr (xs : List JVal)
  | jobj (fields : List (List Char × JVal))

open JVal

/-- Python truthiness of a JSON value (`if not x`). -/
def pyTruthy : JVal → Bool
  | jnull => false
  | jbool b => b
  | jnum n => n != 0
  | jstr s => !s.isEmpty
  | jarr xs => !xs.isEmpty
  | jobj fs => !fs.isEmpty

/-- Python `v == "..."` for a dynamic value: equality with a string literal
is `False` for every non-string value. -/
def pyEqStr (v : JVal) (s : List Char) : Bool :=
  match v with
  | jstr t => t == s
  | _ => false

/-- Association lookup in a parsed JSON object (`d[k]` / `d.get(k)`). -/
def jLookup (fs : List (List Char × JVal)) (k : List Char) : Option JVal :=
  (fs.find? (fun p => p.1 == k)).map (·.2)

/-- Python whitespace characters stripped by `str.strip()`. -/
def isPyWS (c : Char) : Bool :=
  c == ' ' || c == '\t' || c == '\n' || c == '\r' || c == '\x0b' || c == '\x0c'

/-- Python `str.strip()`. -/
def pyStrip (s : List Char) : List Char :=
  ((s.dropWhile isPyWS).reverse.dropWhile isPyWS).reverse

/-- The Python exceptions the embedded code can raise. -/
inductive PyErr where
  | attributeError
deriving DecidableEq

def uniprotKey : List Char := "uniprot_id".toList
def entrezKey : List Char := "entrez_protein_id".toList
def speciesKey : List Char := "species".toList

/-! ## `file_util.validate_genes_config` -/

/-- `ortholog.get(k, "").strip()` — raises `AttributeError` when the key is
present but holds a non-string value (no `.strip` on e.g. `None`). -/
def stripField (fs : List (List Char × JVal)) (k : List Char) :
    Except PyErr (List Char) :=
  match jLookup fs k with
  | none => .ok []
  | some (jstr s) => .ok (pyStrip s)
  | some _ => .error .attributeError

/-- The per-ortholog checks of `validate_genes_config` (non-dict orthologs
just invalidate; the species check never raises because `isinstance` guards
the `strip`; the identifier checks may raise via `stripField`). -/
def speciesFieldOk (fs : List (List Char × JVal)) : Bool :=
  match jLookup fs speciesKey with
  | some (jstr s) => !(pyStrip s).isEmpty
  | _ => false

def orthologValid : JVal → Except PyErr Bool
  | jobj fs => do
      let u ← stripField fs uniprotKey
      let e ← stripField fs entrezKey
      return speciesFieldOk fs && (!u.isEmpty || !e.isEmpty)
  | _ => .ok false

/-- The ortholog loop of `validate_genes_config`: the `valid` flag is
threaded through every ortholog; an exception aborts immediately. -/
def validateOrthologs (acc : Bool) : List JVal → Except PyErr Bool
  | [] => .ok acc
  | o :: rest => do
      let b ← orthologValid o
      validateOrthologs (acc && b) rest

/-- One gene entry of the config: blank gene names and non-list or empty
ortholog lists invalidate the entry without touching its orthologs (every
non-array value is invalid whatever the gene name, so the name check and
the list check commute). -/
def geneEntryValid (gname : List Char) : JVal → Except PyErr Bool
  | jarr os =>
      if (pyStrip gname).isEmpty then .ok false
      else if os.isEmpty then .ok false
      else validateOrthologs true os
  | _ => .ok false

/-- The gene loop of `validate_genes_config`. -/
def validateEntries (acc : Bool) : List (List Char × JVal) → Except PyErr Bool
  | [] => .ok acc
  | (g, v) :: rest => do
      let b ← geneEntryValid g v
      validateEntries (acc && b) rest

/-- `file_util.validate_genes_config`: non-dict and empty configs are
invalid; otherwise every entry is checked and the results conjoined. -/
def validate_genes_config : JVal → Except PyErr Bool
  | jobj fs => if fs.isEmpty then .ok false else validateEntries true fs
  | _ => .ok false

/-- The precondition under which `validate_genes_config` cannot raise:
whenever an identifier field is present on a (dict) ortholog, it holds a
string. -/
def strOrAbsent (fs : List (List Char × JVal)) (k : List Char) : Bool :=
  match jLookup fs k with
  | none => true
  | some (jstr _) => true
  | some _ => false

/-- Identifier fields of one ortholog are strings when present. -/
def orthologIdFieldsOk (o : JVal) : Bool :=
  match o with
  | jobj fs => strOrAbsent fs uniprotKey && strOrAbsent fs entrezKey
  | _ => true

/-- Identifier fields of every ortholog of the config are strings when
present. -/
def configIdFieldsOk (c : JVal) : Bool :=
  match c with
  | jobj fs =>
      fs.all (fun p =>
        match p.2 with
        | jarr os => os.all orthologIdFieldsOk
        | _ => true)
  | _ => true

/-! ## `__main__.collect_orthologous_sequences`

Network fetches are oracle parameters `fetchU`/`fetchN` (the clients catch
all transport errors internally and return a string, `""` on failure, per
the client contract in `uniprot_client.py`/`ncbi_client.py`), and the
per-gene filesystem write is the oracle `writeOk`.  The calls actually
issued are recorded so that "no network call is attempted" is a statement
of the model. -/

/-- One network call issued by the collection stage. -/
inductive FetchCall where
  | uni (v : JVal)
  | ncbi (v : JVal)

/-- The per-ortholog body of the collection loop (`__main__.py` lines
41-67): try the UniProt id when present and `!= ""`; if the result is
falsy, try the Entrez id when present and `!= ""`.  Returns the fasta text
obtained (`""` when none) and the calls issued.  Non-dict orthologs are
unreachable behind `validate_genes_config`. -/
def procOrtholog (fetchU fetchN : JVal → List Char) : JVal → List Char × List FetchCall
  | JVal.jobj fs =>
      let step1 : List Char × List FetchCall :=
        match jLookup fs uniprotKey with
        | some v => if !pyEqStr v [] then (fetchU v, [.uni v]) else ([], [])
        | none => ([], [])
      if step1.1.isEmpty then
        match jLookup fs entrezKey with
        | some v =>
            if !pyEqStr v [] then (fetchN v, step1.2 ++ [.ncbi v])
            else (step1.1, step1.2)
        | none => (step1.1, step1.2)
      else step1
  | _ => ([], [])

/-- The ortholog loop for one gene: concatenates the retrieved fasta texts
in list order and counts successful retrievals. -/
def collectGene (fetchU fetchN : JVal → List Char) (os : List JVal) :
    List Char × Nat × List FetchCall :=
  os.foldl
    (fun acc o =>
      let r := procOrtholog fetchU fetchN o
      (acc.1 ++ r.1, acc.2.1 + (if r.1.isEmpty then 0 else 1), acc.2.2 ++ r.2))
    ([], 0, [])

/-- Result of the collection stage: the returned boolean, the per-gene
files written (gene name, fasta blob) and the network calls issued. -/
structure CollectRes where
  ok : Bool
  files : List (List Char × List Char)
  calls : List FetchCall

/-- The ortholog list of a validated gene entry (validation guarantees the
value is a non-empty array before this loop runs). -/
def asArr : JVal → List JVal
  | JVal.jarr xs => xs
  | _ => []

/-- The gene loop of `collect_orthologous_sequences`: a gene with zero
retrievals is skipped (no file written) and the loop continues; otherwise
the blob is written, and an `OSError` (modelled by `writeOk g = false`)
returns `False` for the whole stage at once. -/
def collectGenes (fetchU fetchN : JVal → List Char) (writeOk : List Char → Bool) :
    List (List Char × JVal) → List (List Char × List Char) → List FetchCall →
    CollectRes
  | [], files, calls => ⟨true, files, calls⟩
  | (g, v) :: rest, files, calls =>
      let r := collectGene fetchU fetchN (asArr v)
      if r.2.1 = 0 then
        collectGenes fetchU fetchN writeOk rest files (calls ++ r.2.2)
      else if writeOk g then
        collectGenes fetchU fetchN writeOk rest (files ++ [(g, r.1)]) (calls ++ r.2.2)
      else ⟨false, files, calls ++ r.2.2⟩

/-- `__main__.collect_orthologous_sequences`.  `config` is the result of
`open_file_return_as_json` (`none` on a missing/unreadable/invalid-JSON
file).  A falsy or invalid config returns `False` before the gene loop; a
validation exception is caught by the function's outer `except` and also
returns `False`. -/
def collect_orthologous_sequences (config : Option JVal)
    (fetchU fetchN : JVal → List Char) (writeOk : List Char → Bool) :
    CollectRes :=
  match config with
  | none => ⟨false, [], []⟩
  | some c =>
      if !pyTruthy c then ⟨false, [], []⟩
      else
        match validate_genes_config c with
        | .error _ => ⟨false, [], []⟩
        | .ok false => ⟨false, [], []⟩
        | .ok true =>
            match c with
            | JVal.jobj fs => collectGenes fetchU fetchN writeOk fs [] []
            | _ => ⟨false, [], []⟩

/-! ## The poll loops of `align_sequences_msa` and `generate_phylogenetic_trees`

`statuses i` is the value returned by the `i`-th `check_status` call
(`none` models Python `None`; the EBI client catches transport errors and
returns `None`).  The job's eventual result payload is a fixed
`Option (List Char)` (`none` models `None`).  The second component of the
result counts the `check_status` calls performed. -/

/-- Outcome of one gene's poll loop.  `success` means the output artifact
was written and the gene counted among the stage successes; every other
outcome leaves the success counter untouched. -/
inductive PollOutcome where
  | success (payload : List Char)
  | emptyResult
  | jobFailed (st : List Char)
  | timeout
deriving DecidableEq

def finishedStr : List Char := "FINISHED".toList
def errorStr : List Char := "ERROR".toList
def failureStr : List Char := "FAILURE".toList

/-- A status response on which either loop stops polling. -/
def isTerminalStatus (st : Option (List Char)) : Bool :=
  st == some finishedStr || st == some errorStr || st == some failureStr

/-- The MSA poll loop body (`__main__.py` lines 134-168): the `while`
condition `status not in (FINISHED, ERROR, FAILURE) and poll_count <
max_polls` becomes fuel `max_polls - poll_count`; only the retry branch
increments `poll_count`.  On `FINISHED` the fetched result is written and
counted as a success iff it is truthy (`if result:`) — `None` and `""` are
failures, but a whitespace-only string is truthy. -/
def msaPollLoop (statuses : Nat → Option (List Char))
    (result : Option (List Char)) : Nat → Nat → PollOutcome × Nat
  | i, 0 => (.timeout, i)
  | i, fuel + 1 =>
      let st := statuses i
      if st == some finishedStr then
        match result with
        | some r => if r.isEmpty then (.emptyResult, i + 1) else (.success r, i + 1)
        | none => (.emptyResult, i + 1)
      else if st == some errorStr || st == some failureStr then
        (.jobFailed ((st).getD []), i + 1)
      else msaPollLoop statuses result (i + 1) fuel

/-- `max_polls = 60` in `align_sequences_msa`. -/
def msaMaxPolls : Nat := 60

/-- The poll loop of `align_sequences_msa` for one submitted job. -/
def msaPoll (statuses : Nat → Option (List Char))
    (result : Option (List Char)) : PollOutcome × Nat :=
  msaPollLoop statuses result 0 msaMaxPolls

/-- The tree poll loop body (`__main__.py` lines 225-266): the `while`
condition is `poll_count < max_polls` alone; `FINISHED` and
`ERROR`/`FAILURE` break out, and both the recognised running-like statuses
(`RUNNING`, `PENDING`, `QUEUED`) and every unrecognised status (including
`None`) sleep and increment `poll_count`.  On `FINISHED` the fetched tree
is written and counted iff `tree and tree.strip()` — empty *and*
whitespace-only payloads are failures here. -/
def treePollLoop (statuses : Nat → Option (List Char))
    (tree : Option (List Char)) : Nat → Nat → PollOutcome × Nat
  | i, 0 => (.timeout, i)
  | i, fuel + 1 =>
      let st := statuses i
      if st == some finishedStr then
        match tree with
        | some t =>
            if !t.isEmpty && !(pyStrip t).isEmpty then (.success t, i + 1)
            else (.emptyResult, i + 1)
        | none => (.emptyResult, i + 1)
      else if st == some errorStr || st == some failureStr then
        (.jobFailed ((st).getD []), i + 1)
      else treePollLoop statuses tree (i + 1) fuel

/-- `max_polls = 120` in `generate_phylogenetic_trees`. -/
def treeMaxPolls : Nat := 120

/-- The poll loop of `generate_phylogenetic_trees` for one submitted job. -/
def treePoll (statuses : Nat → Option (List Char))
    (tree : Option (List Char)) : PollOutcome × Nat :=
  treePollLoop statuses tree 0 treeMaxPolls

/-! ## `__main__.async_main` -/

/-- The pipeline stages, in the order `async_main` runs them. -/
inductive Stage where
  | collectSeqs
  | alignMsa
  | genTrees
  | clinvarFetch
  | uniprotVariants
  | conservation
  | visualizations
  | variantPlots
  | clinvarPlot
  | domainViz
deriving DecidableEq

/-- The stage order of `async_main`. -/
def stageOrder : List Stage :=
  [.collectSeqs, .alignMsa, .genTrees, .clinvarFetch, .uniprotVariants,
   .conservation, .visualizations, .variantPlots, .clinvarPlot, .domainViz]

/-- `__main__.async_main`, at the granularity of stages: the results of the
first three stages are the booleans those functions return; `stageOk s`
says stage `s` completed without a critical error (for the later stages a
critical error makes the corresponding `try/except` return 1, except
domain visualisation, whose failure is only logged).  Returns the exit
code together with the list of stages started, in order. -/
def async_main (collectOk alignOk treesOk : Bool) (stageOk : Stage → Bool) :
    Int × List Stage :=
  if !collectOk then (1, [.collectSeqs])
  else if !alignOk then (1, [.collectSeqs, .alignMsa])
  else if !treesOk then (1, [.collectSeqs, .alignMsa, .genTrees])
  else if !stageOk .clinvarFetch then
    (1, [.collectSeqs, .alignMsa, .genTrees, .clinvarFetch])
  else if !stageOk .uniprotVariants then
    (1, [.collectSeqs, .alignMsa, .genTrees, .clinvarFetch, .uniprotVariants])
  else if !stageOk .conservation then
    (1, [.collectSeqs, .alignMsa, .genTrees, .clinvarFetch, .uniprotVariants,
         .conservation])
  else if !stageOk .visualizations then
    (1, [.collectSeqs, .alignMsa, .genTrees, .clinvarFetch, .uniprotVariants,
         .conservation, .visualizations])
  else if !stageOk .variantPlots then
    (1, [.collectSeqs, .alignMsa, .genTrees, .clinvarFetch, .uniprotVariants,
         .conservation, .visualizations, .variantPlots])
  else if !stageOk .clinvarPlot then
    (1, [.collectSeqs, .alignMsa, .genTrees, .clinvarFetch, .uniprotVariants,
         .conservation, .visualizations, .variantPlots, .clinvarPlot])
  else (0, stageOrder)

/-! ## `biopython_service.compute_conservation_scores` (per-column core)

The per-column computation (lines 183-237) walks `set(column)`.  A Python
`set` of strings has *some* iteration order, constrained only by its
contents (`validEnum` below) — across interpreter runs the order varies
with string-hash randomisation, so it is an explicit parameter here.
`np.log2` on exact values is `Real.logb 2`. -/

/-- The gap symbol. -/
def gapChar : Char := '-'

/-- `[column.count(aa) / total for aa in unique_chars]`. -/
def colFreqs (col uniq : List Char) : List ℚ :=
  uniq.map (fun a => (col.count a : ℚ) / (col.length : ℚ))

/-- `abs(-sum(p * np.log2(p) for p in freqs if p > 0))`. -/
noncomputable def entropyOf (col uniq : List Char) : ℝ :=
  |(-((((colFreqs col uniq).filter (fun p => 0 < p)).map
        (fun p : ℚ => (p : ℝ) * Real.logb 2 (p : ℝ))).sum))|

/-- Python `max(xs, key=key)`: the *first* element of maximal key in
iteration order (a later element replaces the current one only when its
key is strictly greater); `none` models the `ValueError` on an empty
iterable. -/
def pyMaxBy (key : Char → Nat) : List Char → Option Char
  | [] => none
  | x :: xs => some (xs.foldl (fun b c => if key b < key c then c else b) x)

/-- One output record of `compute_conservation_scores` (one CSV row,
minus the 1-based position, which is the row index). -/
structure ConsRow where
  entropyWithGaps : ℝ
  entropyNoGaps : ℝ
  consensus : Char

/-- The per-column body: `column_nogap = column_full.replace("-", "")`;
an empty gap-free column yields entropies as written and consensus `-`
(`max` over an empty set raises `ValueError`, whose handler sets entropy 0
and consensus `-`).  `uniqFull`/`uniqNogap` are the iteration orders of
`set(column_full)` / `set(column_nogap)`. -/
noncomputable def conservationRow (col uniqFull uniqNogap : List Char) :
    ConsRow :=
  let colNogap := col.filter (fun c => c != gapChar)
  let ewith := if col.length = 0 then 0 else entropyOf col uniqFull
  if colNogap.length = 0 then ⟨ewith, 0, gapChar⟩
  else
    match pyMaxBy (fun a => colNogap.count a) uniqNogap with
    | some m => ⟨ewith, entropyOf colNogap uniqNogap, m⟩
    | none => ⟨ewith, 0, gapChar⟩

/-- `uniq` is a possible iteration order of `set(col)`: duplicate-free and
with exactly the members of `col`. -/
def validEnum (col uniq : List Char) : Prop :=
  uniq.Nodup ∧ (∀ c ∈ uniq, c ∈ col) ∧ (∀ c ∈ col, c ∈ uniq)

instance (col uniq : List Char) : Decidable (validEnum col uniq) := by
  unfold validEnum
  infer_instance

/-! ## `scientific_plots.VariantPlotter._get_dynamic_variant_classifications` -/

/-- Python `str.lower()` (per-character, as for ASCII clinical text). -/
def pyLower (s : List Char) : List Char := s.map Char.toLower

/-- Whether `pat` is a prefix of `s` (helper for substring search). -/
def startsWithSub : List Char → List Char → Bool
  | _, [] => true
  | [], _ :: _ => false
  | a :: as, b :: bs => a == b && startsWithSub as bs

/-- Python `pat in s` on strings: `pat` occurs contiguously in `s`. -/
def containsSub : List Char → List Char → Bool
  | [], pat => pat.isEmpty
  | a :: rest, pat => startsWithSub (a :: rest) pat || containsSub rest pat

def likelyPathogenicP : List Char := "likely pathogenic".toList
def likelyBenignP : List Char := "likely benign".toList
def uncertainP : List Char := "uncertain significance".toList
def borderlineP : List Char := "borderline".toList

/-- The `reduced_function` trigger phrases. -/
def reducedTerms : List (List Char) :=
  ["reduced function".toList, "decreased peak current".toList,
   "impaired channel".toList, "reduced current".toList]

/-- The `lof_indicators` list. -/
def lofIndicators : List (List Char) :=
  ["loss of function".toList, "loss-of-function".toList,
   "non-functional channel".toList,
   "results in a non-functional channel".toList,
   "complete absence of sodium current".toList,
   "absence of sodium current".toList,
   "complete loss of sodium ion transmembrane transport".toList,
   "complete loss of sodium".toList]

/-- One variant row as the classifier sees it: `parsed_position` (rows
with unparseable positions were dropped upstream) and the free-text
`description`. -/
structure VariantRow where
  pos : Int
  desc : List Char

/-- The six position lists built by `_get_dynamic_variant_classifications`
(`lof_positions`, `pathogenic_positions` and the `additional_classifications`
dict). -/
structure VariantSets where
  lof : List Int
  pathogenic : List Int
  benign : List Int
  uncertain : List Int
  borderline : List Int
  reduced : List Int

/-- The per-row body of the classification loop: each category test is an
independent `if` over the lowercased description, appending the position
to that category's list. -/
def classifyRow (acc : VariantSets) (r : VariantRow) : VariantSets :=
  let d := pyLower r.desc
  let a1 := if containsSub d likelyPathogenicP then
    { acc with pathogenic := acc.pathogenic ++ [r.pos] } else acc
  let a2 := if containsSub d likelyBenignP then
    { a1 with benign := a1.benign ++ [r.pos] } else a1
  let a3 := if containsSub d uncertainP then
    { a2 with uncertain := a2.uncertain ++ [r.pos] } else a2
  let a4 := if containsSub d borderlineP then
    { a3 with borderline := a3.borderline ++ [r.pos] } else a3
  let a5 := if reducedTerms.any (fun t => containsSub d t) then
    { a4 with reduced := a4.reduced ++ [r.pos] } else a4
  if lofIndicators.any (fun t => containsSub d t) then
    { a5 with lof := a5.lof ++ [r.pos] } else a5

/-- Python `sorted(list(set(l)))`. -/
def pySortedSet (l : List Int) : List Int :=
  l.dedup.insertionSort (fun a b => a ≤ b)

/-- `_get_dynamic_variant_classifications`: fold the rows, then return the
loss-of-function and likely-pathogenic lists deduplicated and sorted, and
the additional category lists as accumulated. -/
def get_dynamic_variant_classifications (rows : List VariantRow) :
    VariantSets :=
  let raw := rows.foldl classifyRow ⟨[], [], [], [], [], []⟩
  { raw with lof := pySortedSet raw.lof, pathogenic := pySortedSet raw.pathogenic }

/-! ## Poll-loop lemmas -/

/-- If no status response is terminal, the MSA loop spends all its fuel and
times out, having polled once per unit of fuel. -/
lemma msaPollLoop_timeout (statuses : Nat → Option (List Char))
    (r : Option (List Char))
    (h : ∀ i, isTerminalStatus (statuses i) = false) :
    ∀ (fuel i : Nat), msaPollLoop statuses r i fuel = (.timeout, i + fuel) := by
  intro fuel
  induction fuel with
  | zero => intro i; simp [msaPollLoop]
  | succ n ih =>
      intro i
      have hf := h i
      simp only [isTerminalStatus, Bool.or_eq_false_iff] at hf
      simp only [msaPollLoop, hf.1.1, hf.1.2, hf.2, Bool.or_self,
        Bool.false_eq_true, if_false]
      rw [ih (i + 1)]
      have harith : i + 1 + n = i + (n + 1) := by omega
      rw [harith]

/-- Same for the tree loop. -/
lemma treePollLoop_timeout (statuses : Nat → Option (List Char))
    (t : Option (List Char))
    (h : ∀ i, isTerminalStatus (statuses i) = false) :
    ∀ (fuel i : Nat), treePollLoop statuses t i fuel = (.timeout, i + fuel) := by
  intro fuel
  induction fuel with
  | zero => intro i; simp [treePollLoop]
  | succ n ih =>
      intro i
      have hf := h i
      simp only [isTerminalStatus, Bool.or_eq_false_iff] at hf
      simp only [treePollLoop, hf.1.1, hf.1.2, hf.2, Bool.or_self,
        Bool.false_eq_true, if_false]
      rw [ih (i + 1)]
      have harith : i + 1 + n = i + (n + 1) := by omega
      rw [harith]

/-- C5: Each poll loop is bounded: against any status source that never
reports FINISHED, ERROR or FAILURE (None and unrecognized strings
included), the MSA loop performs exactly its maximum of 60 status polls
and ends in a client-side timeout, and the tree loop does the same after
its maximum of 120 polls; neither loops indefinitely. -/
theorem poll_loops_bounded (statuses : Nat → Option (List Char))
    (result tree : Option (List Char))
    (h : ∀ i, isTerminalStatus (statuses i) = false) :
    msaPoll statuses result = (.timeout, msaMaxPolls) ∧
    treePoll statuses tree = (.timeout, treeMaxPolls) := by
  constructor
  · rw [msaPoll, msaPollLoop_timeout statuses result h msaMaxPolls 0,
      Nat.zero_add]
  · rw [treePoll, treePollLoop_timeout statuses tree h treeMaxPolls 0,
      Nat.zero_add]

/-- Witness for C5: a status source stuck on RUNNING forever. -/
theorem poll_loops_bounded_witness :
    msaPoll (fun _ => some ("RUNNING".toList)) none = (.timeout, msaMaxPolls) ∧
    treePoll (fun _ => some ("RUNNING".toList)) none = (.timeout, treeMaxPolls) :=
  poll_loops_bounded (fun _ => some ("RUNNING".toList)) none none
    (by
      intro i
      show isTerminalStatus (some ("RUNNING".toList)) = false
      decide)

/-- C4: `async_main` returns exit code 1 as soon as one of the first three
stages returns false, without starting any later stage (the trace stops at
the failing stage); when every stage completes, including all later
best-effort stages, it returns 0. -/
theorem async_main_abort_policy :
    (∀ (a t : Bool) (so : Stage → Bool),
      async_main false a t so = (1, [Stage.collectSeqs])) ∧
    (∀ (t : Bool) (so : Stage → Bool),
      async_main true false t so = (1, [Stage.collectSeqs, Stage.alignMsa])) ∧
    (∀ (so : Stage → Bool),
      async_main true true false so =
        (1, [Stage.collectSeqs, Stage.alignMsa, Stage.genTrees])) ∧
    (∀ (so : Stage → Bool), (∀ s, so s = true) →
      async_main true true true so = (0, stageOrder)) := by
  refine ⟨?_, ?_, ?_, ?_⟩
  · intro a t so; rfl
  · intro t so; rfl
  · intro so; rfl
  · intro so hso
    simp [async_main, hso]

/-- Witness for C4: concrete gate failure and a fully successful run. -/
theorem async_main_abort_policy_witness :
    async_main false true true (fun _ => true) = (1, [Stage.collectSeqs]) ∧
    async_main true true true (fun _ => true) = (0, stageOrder) :=
  ⟨async_main_abort_policy.1 true true (fun _ => true),
   async_main_abort_policy.2.2.2 (fun _ => true) (fun _ => rfl)⟩

/-! ## First-poll lemmas for the FINISHED-with-empty-payload behavior -/

/-- When the very first status poll reports FINISHED, the MSA loop stops
at once and classifies the payload by Python truthiness alone. -/
lemma msaPoll_finished_first (statuses : Nat → Option (List Char))
    (r : Option (List Char)) (h : statuses 0 = some finishedStr) :
    msaPoll statuses r =
      match r with
      | some x => if x.isEmpty then (.emptyResult, 1) else (.success x, 1)
      | none => (.emptyResult, 1) := by
  have hm : msaMaxPolls = 59 + 1 := rfl
  rw [msaPoll, hm]
  simp [msaPollLoop, h]

/-- When the very first status poll reports FINISHED, the tree loop stops
at once and requires the payload to be truthy *and* have a truthy strip. -/
lemma treePoll_finished_first (statuses : Nat → Option (List Char))
    (t : Option (List Char)) (h : statuses 0 = some finishedStr) :
    treePoll statuses t =
      match t with
      | some x =>
          if !x.isEmpty && !(pyStrip x).isEmpty then (.success x, 1)
          else (.emptyResult, 1)
      | none => (.emptyResult, 1) := by
  have hm : treeMaxPolls = 119 + 1 := rfl
  rw [treePoll, hm]
  simp [treePollLoop, h]

/-- C3 counterexample: in the alignment loop, a job that finishes with a
whitespace-only payload is recorded as a success (the artifact is written
and the gene counted), even though the payload is blank. -/
theorem msa_blank_payload_accepted :
    (msaPoll (fun _ => some finishedStr) (some [' '])).1 =
      PollOutcome.success [' '] ∧
    pyStrip [' '] = [] := by
  constructor
  · rfl
  · rfl

/-- C3 amended: a FINISHED job with a `None` or empty-string payload is a
failure in both loops, and the tree loop also fails whitespace-only
payloads; but the alignment loop accepts any non-empty payload — including
a whitespace-only one — as success. -/
theorem finished_empty_payload_handling
    (statuses : Nat → Option (List Char)) (r t : List Char)
    (h0 : statuses 0 = some finishedStr) :
    (msaPoll statuses none).1 = PollOutcome.emptyResult ∧
    (msaPoll statuses (some [])).1 = PollOutcome.emptyResult ∧
    (r ≠ [] → (msaPoll statuses (some r)).1 = PollOutcome.success r) ∧
    (treePoll statuses none).1 = PollOutcome.emptyResult ∧
    (pyStrip t = [] → (treePoll statuses (some t)).1 = PollOutcome.emptyResult) ∧
    (t ≠ [] → pyStrip t ≠ [] →
      (treePoll statuses (some t)).1 = PollOutcome.success t) := by
  refine ⟨?_, ?_, ?_, ?_, ?_, ?_⟩
  · rw [msaPoll_finished_first statuses none h0]
  · rw [msaPoll_finished_first statuses (some []) h0]; rfl
  · intro hr
    rw [msaPoll_finished_first statuses (some r) h0]
    simp [List.isEmpty_iff, hr]
  · rw [treePoll_finished_first statuses none h0]
  · intro hs
    rw [treePoll_finished_first statuses (some t) h0]
    simp [List.isEmpty_iff, hs]
  · intro ht hs
    rw [treePoll_finished_first statuses (some t) h0]
    simp [List.isEmpty_iff, ht, hs]

/-- Witness for C3 (amended): concrete payloads for each branch. -/
theorem finished_empty_payload_handling_witness :
    (msaPoll (fun _ => some finishedStr) (some [])).1 =
      PollOutcome.emptyResult ∧
    (msaPoll (fun _ => some finishedStr) (some ['A'])).1 =
      PollOutcome.success ['A'] ∧
    (treePoll (fun _ => some finishedStr) (some [' '])).1 =
      PollOutcome.emptyResult ∧
    (treePoll (fun _ => some finishedStr) (some ['A'])).1 =
      PollOutcome.success ['A'] := by
  have h := finished_empty_payload_handling (fun _ => some finishedStr)
    ['A'] [' '] rfl
  have h2 := finished_empty_payload_handling (fun _ => some finishedStr)
    ['A'] ['A'] rfl
  exact ⟨h.2.1, h.2.2.1 (by decide),
    h.2.2.2.2.1 (by decide), h2.2.2.2.2.2 (by decide) (by decide)⟩

/-! ## Variant-classification lemmas -/

/-- The pathogenic list after one row: appended iff the description
matches "likely pathogenic"; no other branch touches it. -/
lemma classifyRow_pathogenic (acc : VariantSets) (r : VariantRow) :
    (classifyRow acc r).pathogenic =
      if containsSub (pyLower r.desc) likelyPathogenicP then
        acc.pathogenic ++ [r.pos]
      else acc.pathogenic := by
  simp only [classifyRow]
  split <;> split <;> split <;> split <;> split <;> split <;> rfl

/-- The reduced-function list after one row: appended iff one of the
reduced-function phrases matches; no other branch touches it. -/
lemma classifyRow_reduced (acc : VariantSets) (r : VariantRow) :
    (classifyRow acc r).reduced =
      if reducedTerms.any (fun t => containsSub (pyLower r.desc) t) then
        acc.reduced ++ [r.pos]
      else acc.reduced := by
  simp only [classifyRow]
  split <;> split <;> split <;> split <;> split <;> split <;> rfl

/-- Positions already collected stay collected, and a matching row's
position joins the pathogenic list, through the whole fold. -/
lemma classify_fold_pathogenic (rows : List VariantRow) :
    ∀ (acc : VariantSets) (p : Int),
      (p ∈ acc.pathogenic ∨ ∃ r ∈ rows,
        r.pos = p ∧ containsSub (pyLower r.desc) likelyPathogenicP = true) →
      p ∈ (rows.foldl classifyRow acc).pathogenic := by
  induction rows with
  | nil =>
      intro acc p hp
      rcases hp with hp | ⟨r, hr, _⟩
      · exact hp
      · cases hr
  | cons r rows ih =>
      intro acc p hp
      simp only [List.foldl_cons]
      apply ih
      rcases hp with hp | ⟨s, hs, hpos, hmatch⟩
      · left
        rw [classifyRow_pathogenic]
        split
        · exact List.mem_append_left _ hp
        · exact hp
      · rcases List.mem_cons.mp hs with hs | hs
        · left
          subst hs
          rw [classifyRow_pathogenic, hmatch]
          simp [← hpos]
        · right
          exact ⟨s, hs, hpos, hmatch⟩

/-- Same for the reduced-function list. -/
lemma classify_fold_reduced (rows : List VariantRow) :
    ∀ (acc : VariantSets) (p : Int),
      (p ∈ acc.reduced ∨ ∃ r ∈ rows,
        r.pos = p ∧
        reducedTerms.any (fun t => containsSub (pyLower r.desc) t) = true) →
      p ∈ (rows.foldl classifyRow acc).reduced := by
  induction rows with
  | nil =>
      intro acc p hp
      rcases hp with hp | ⟨r, hr, _⟩
      · exact hp
      · cases hr
  | cons r rows ih =>
      intro acc p hp
      simp only [List.foldl_cons]
      apply ih
      rcases hp with hp | ⟨s, hs, hpos, hmatch⟩
      · left
        rw [classifyRow_reduced]
        split
        · exact List.mem_append_left _ hp
        · exact hp
      · rcases List.mem_cons.mp hs with hs | hs
        · left
          subst hs
          rw [classifyRow_reduced, hmatch]
          simp [← hpos]
        · right
          exact ⟨s, hs, hpos, hmatch⟩

/-- Membership survives `sorted(list(set(...)))`. -/
lemma mem_pySortedSet {p : Int} {l : List Int} (h : p ∈ l) :
    p ∈ pySortedSet l := by
  unfold pySortedSet
  rw [(List.perm_insertionSort (fun a b => a ≤ b) l.dedup).mem_iff]
  exact List.mem_dedup.mpr h

/-- C9: category sets are independent: a variant row (with a parseable
position) whose lowercased description contains both "likely pathogenic"
and "reduced function" lands in both the likely-pathogenic set and the
reduced-function set of `_get_dynamic_variant_classifications`. -/
theorem variant_categories_independent (rows : List VariantRow)
    (r : VariantRow) (hr : r ∈ rows)
    (hp : containsSub (pyLower r.desc) likelyPathogenicP = true)
    (hrf : containsSub (pyLower r.desc) ("reduced function".toList) = true) :
    r.pos ∈ (get_dynamic_variant_classifications rows).pathogenic ∧
    r.pos ∈ (get_dynamic_variant_classifications rows).reduced := by
  have hany : reducedTerms.any (fun t => containsSub (pyLower r.desc) t) = true := by
    apply List.any_eq_true.mpr
    exact ⟨"reduced function".toList, by simp [reducedTerms], hrf⟩
  unfold get_dynamic_variant_classifications
  constructor
  · exact mem_pySortedSet
      (classify_fold_pathogenic rows _ r.pos (Or.inr ⟨r, hr, rfl, hp⟩))
  · exact classify_fold_reduced rows _ r.pos (Or.inr ⟨r, hr, rfl, hany⟩)

/-- Witness for C9: a description carrying both trigger phrases. -/
theorem variant_categories_independent_witness :
    (42 : Int) ∈ (get_dynamic_variant_classifications
      [⟨42, "Likely pathogenic; results in reduced function".toList⟩]).pathogenic ∧
    (42 : Int) ∈ (get_dynamic_variant_classifications
      [⟨42, "Likely pathogenic; results in reduced function".toList⟩]).reduced :=
  variant_categories_independent
    [⟨42, "Likely pathogenic; results in reduced function".toList⟩]
    ⟨42, "Likely pathogenic; results in reduced function".toList⟩
    (List.mem_singleton.mpr rfl) (by decide) (by decide)

/-! ## Validation lemmas -/

/-- Unfolding one step of the ortholog loop when the head check returns a
boolean. -/
lemma validateOrthologs_cons_ok (acc : Bool) (o : JVal) (os : List JVal)
    (b : Bool) (hb : orthologValid o = .ok b) :
    validateOrthologs acc (o :: os) = validateOrthologs (acc && b) os := by
  show (do
      let x ← orthologValid o
      validateOrthologs (acc && x) os) = validateOrthologs (acc && b) os
  rw [hb]
  rfl

/-- Unfolding one step of the gene loop when the head check returns a
boolean. -/
lemma validateEntries_cons_ok (acc : Bool) (g : List Char) (v : JVal)
    (fs : List (List Char × JVal)) (b : Bool)
    (hb : geneEntryValid g v = .ok b) :
    validateEntries acc ((g, v) :: fs) = validateEntries (acc && b) fs := by
  show (do
      let x ← geneEntryValid g v
      validateEntries (acc && x) fs) = validateEntries (acc && b) fs
  rw [hb]
  rfl

/-- `stripField` returns a value whenever the field is absent or a
string. -/
lemma stripField_ok (fs : List (List Char × JVal)) (k : List Char)
    (h : strOrAbsent fs k = true) : ∃ s, stripField fs k = .ok s := by
  unfold strOrAbsent at h
  unfold stripField
  cases hj : jLookup fs k with
  | none => exact ⟨[], rfl⟩
  | some v =>
      rw [hj] at h
      cases v with
      | jstr s => exact ⟨pyStrip s, rfl⟩
      | jnull => simp at h
      | jbool b => simp at h
      | jnum n => simp at h
      | jarr xs => simp at h
      | jobj f2 => simp at h

/-- `orthologValid` returns a boolean whenever the identifier fields are
strings when present. -/
lemma orthologValid_ok (o : JVal) (h : orthologIdFieldsOk o = true) :
    ∃ b, orthologValid o = .ok b := by
  cases o with
  | jobj fs =>
      have h' : (strOrAbsent fs uniprotKey && strOrAbsent fs entrezKey) = true := h
      obtain ⟨hu, he⟩ := Bool.and_eq_true_iff.mp h'
      obtain ⟨su, hsu⟩ := stripField_ok fs uniprotKey hu
      obtain ⟨se, hse⟩ := stripField_ok fs entrezKey he
      refine ⟨speciesFieldOk fs && (!su.isEmpty || !se.isEmpty), ?_⟩
      simp only [orthologValid]
      rw [hsu, hse]
      rfl
  | jnull => exact ⟨false, rfl⟩
  | jbool b => exact ⟨false, rfl⟩
  | jnum n => exact ⟨false, rfl⟩
  | jstr s => exact ⟨false, rfl⟩
  | jarr xs => exact ⟨false, rfl⟩

/-- The ortholog loop returns a boolean whenever every ortholog's
identifier fields are strings when present. -/
lemma validateOrthologs_ok (os : List JVal)
    (h : ∀ o ∈ os, orthologIdFieldsOk o = true) :
    ∀ acc, ∃ b, validateOrthologs acc os = .ok b := by
  induction os with
  | nil => intro acc; exact ⟨acc, rfl⟩
  | cons o os ih =>
      intro acc
      obtain ⟨b, hb⟩ := orthologValid_ok o (h o (List.mem_cons_self o os))
      rw [validateOrthologs_cons_ok acc o os b hb]
      exact ih (fun x hx => h x (List.mem_cons_of_mem o hx)) (acc && b)

/-- Once the `valid` flag is false it stays false through the ortholog
loop (when no exception fires). -/
lemma validateOrthologs_false (os : List JVal)
    (h : ∀ o ∈ os, orthologIdFieldsOk o = true) :
    validateOrthologs false os = .ok false := by
  induction os with
  | nil => rfl
  | cons o os ih =>
      obtain ⟨b, hb⟩ := orthologValid_ok o (h o (List.mem_cons_self o os))
      rw [validateOrthologs_cons_ok false o os b hb, Bool.false_and]
      exact ih (fun x hx => h x (List.mem_cons_of_mem o hx))

/-- If some ortholog in the list fails its checks, the loop result is
`false` regardless of the accumulator. -/
lemma validateOrthologs_mem_false (os : List JVal) (o : JVal)
    (hmem : o ∈ os) (hbad : orthologValid o = .ok false)
    (h : ∀ x ∈ os, orthologIdFieldsOk x = true) :
    ∀ acc, validateOrthologs acc os = .ok false := by
  induction os with
  | nil => cases hmem
  | cons x os ih =>
      intro acc
      rcases List.mem_cons.mp hmem with hx | hx
      · subst hx
        rw [validateOrthologs_cons_ok acc o os false hbad, Bool.and_false]
        exact validateOrthologs_false os
          (fun y hy => h y (List.mem_cons_of_mem o hy))
      · obtain ⟨b, hb⟩ := orthologValid_ok x (h x (List.mem_cons_self x os))
        rw [validateOrthologs_cons_ok acc x os b hb]
        exact ih hx (fun y hy => h y (List.mem_cons_of_mem x hy)) (acc && b)

/-- The per-entry hypothesis extracted from `configIdFieldsOk`. -/
def entryIdFieldsOk (v : JVal) : Bool :=
  match v with
  | JVal.jarr os => os.all orthologIdFieldsOk
  | _ => true

/-- A gene entry returns a boolean whenever its orthologs' identifier
fields are strings when present. -/
lemma geneEntryValid_ok (g : List Char) (v : JVal)
    (h : entryIdFieldsOk v = true) : ∃ b, geneEntryValid g v = .ok b := by
  cases v with
  | jarr os =>
      simp only [geneEntryValid]
      by_cases hg : (pyStrip g).isEmpty
      · exact ⟨false, by rw [if_pos hg]⟩
      · rw [if_neg hg]
        by_cases hos : os.isEmpty
        · exact ⟨false, by rw [if_pos hos]⟩
        · rw [if_neg hos]
          have h' : os.all orthologIdFieldsOk = true := h
          exact validateOrthologs_ok os
            (fun o ho => List.all_eq_true.mp h' o ho) true
  | jnull => exact ⟨false, rfl⟩
  | jbool b => exact ⟨false, rfl⟩
  | jnum n => exact ⟨false, rfl⟩
  | jstr s => exact ⟨false, rfl⟩
  | jobj fs => exact ⟨false, rfl⟩

/-- The gene loop returns a boolean whenever every entry satisfies
`entryIdFieldsOk`. -/
lemma validateEntries_ok (fs : List (List Char × JVal))
    (h : ∀ p ∈ fs, entryIdFieldsOk p.2 = true) :
    ∀ acc, ∃ b, validateEntries acc fs = .ok b := by
  induction fs with
  | nil => intro acc; exact ⟨acc, rfl⟩
  | cons p fs ih =>
      intro acc
      obtain ⟨g, v⟩ := p
      obtain ⟨b, hb⟩ := geneEntryValid_ok g v (h (g, v) (List.mem_cons_self _ fs))
      rw [validateEntries_cons_ok acc g v fs b hb]
      exact ih (fun x hx => h x (List.mem_cons_of_mem _ hx)) (acc && b)

/-- Once false, the gene-loop flag stays false (when no exception
fires). -/
lemma validateEntries_false (fs : List (List Char × JVal))
    (h : ∀ p ∈ fs, entryIdFieldsOk p.2 = true) :
    validateEntries false fs = .ok false := by
  induction fs with
  | nil => rfl
  | cons p fs ih =>
      obtain ⟨g, v⟩ := p
      obtain ⟨b, hb⟩ := geneEntryValid_ok g v (h (g, v) (List.mem_cons_self _ fs))
      rw [validateEntries_cons_ok false g v fs b hb, Bool.false_and]
      exact ih (fun x hx => h x (List.mem_cons_of_mem _ hx))

/-- If some gene entry fails its checks, the gene loop returns `false`. -/
lemma validateEntries_mem_false (fs : List (List Char × JVal))
    (g : List Char) (v : JVal)
    (hmem : (g, v) ∈ fs) (hbad : geneEntryValid g v = .ok false)
    (h : ∀ p ∈ fs, entryIdFieldsOk p.2 = true) :
    ∀ acc, validateEntries acc fs = .ok false := by
  induction fs with
  | nil => cases hmem
  | cons p fs ih =>
      intro acc
      obtain ⟨g2, v2⟩ := p
      rcases List.mem_cons.mp hmem with hx | hx
      · have hg : g2 = g := (Prod.mk.injEq _ _ _ _ ▸ hx.symm).1
        have hv : v2 = v := (Prod.mk.injEq _ _ _ _ ▸ hx.symm).2
        subst hg
        subst hv
        rw [validateEntries_cons_ok acc g2 v2 fs false hbad, Bool.and_false]
        exact validateEntries_false fs
          (fun y hy => h y (List.mem_cons_of_mem _ hy))
      · obtain ⟨b, hb⟩ :=
          geneEntryValid_ok g2 v2 (h (g2, v2) (List.mem_cons_self _ fs))
        rw [validateEntries_cons_ok acc g2 v2 fs b hb]
        exact ih hx (fun y hy => h y (List.mem_cons_of_mem _ hy)) (acc && b)

/-- C10: `validate_genes_config` is not total over parsed JSON configs:
an ortholog whose `uniprot_id` key holds `null` makes the `.strip()` call
raise `AttributeError` instead of the function returning false; the
function returns a boolean under the precondition that identifier fields,
when present, hold strings. -/
theorem validate_genes_config_partiality :
    validate_genes_config
      (JVal.jobj [("GENE".toList, JVal.jarr
        [JVal.jobj [("species".toList, JVal.jstr "Human".toList),
                    ("uniprot_id".toList, JVal.jnull)]])]) =
      .error PyErr.attributeError ∧
    ∀ c : JVal, configIdFieldsOk c = true →
      ∃ b : Bool, validate_genes_config c = .ok b := by
  constructor
  · rfl
  · intro c hc
    cases c with
    | jobj fs =>
        simp only [validate_genes_config]
        by_cases hfs : fs.isEmpty
        · exact ⟨false, by rw [if_pos hfs]⟩
        · rw [if_neg hfs]
          apply validateEntries_ok
          intro p hp
          have h2 :
              (fun p : List Char × JVal =>
                match p.2 with
                | JVal.jarr os => os.all orthologIdFieldsOk
                | _ => true) p = true :=
            List.all_eq_true.mp hc p hp
          exact h2
    | jnull => exact ⟨false, rfl⟩
    | jbool b => exact ⟨false, rfl⟩
    | jnum n => exact ⟨false, rfl⟩
    | jstr s => exact ⟨false, rfl⟩
    | jarr xs => exact ⟨false, rfl⟩

/-- Witness for C10: a well-formed config on which the precondition holds
and validation returns a boolean. -/
theorem validate_genes_config_partiality_witness :
    configIdFieldsOk
      (JVal.jobj [("GENE".toList, JVal.jarr
        [JVal.jobj [("species".toList, JVal.jstr "Human".toList),
                    ("uniprot_id".toList, JVal.jstr "P35498".toList)]])]) = true ∧
    ∃ b : Bool, validate_genes_config
      (JVal.jobj [("GENE".toList, JVal.jarr
        [JVal.jobj [("species".toList, JVal.jstr "Human".toList),
                    ("uniprot_id".toList, JVal.jstr "P35498".toList)]])]) =
      .ok b :=
  ⟨rfl, validate_genes_config_partiality.2 _ rfl⟩

/-- C7: a config containing an ortholog object with neither a non-blank
string `uniprot_id` nor a non-blank string `entrez_protein_id` (fields
absent or blank; id fields of all orthologs strings when present) fails
`validate_genes_config`, and `collect_orthologous_sequences` then returns
false having issued no network call and written no file. -/
theorem missing_ids_fail_validation_before_network
    (fs : List (List Char × JVal)) (g : List Char) (os : List JVal)
    (ofs : List (List Char × JVal))
    (hmem : (g, JVal.jarr os) ∈ fs)
    (ho : JVal.jobj ofs ∈ os)
    (hu : stripField ofs uniprotKey = .ok [])
    (he : stripField ofs entrezKey = .ok [])
    (hids : configIdFieldsOk (JVal.jobj fs) = true)
    (fetchU fetchN : JVal → List Char) (writeOk : List Char → Bool) :
    validate_genes_config (JVal.jobj fs) = .ok false ∧
    collect_orthologous_sequences (some (JVal.jobj fs)) fetchU fetchN writeOk =
      ⟨false, [], []⟩ := by
  have hentries : ∀ p ∈ fs, entryIdFieldsOk p.2 = true := by
    intro p hp
    exact List.all_eq_true.mp hids p hp
  have hbadOrtholog : orthologValid (JVal.jobj ofs) = .ok false := by
    show ((stripField ofs uniprotKey).bind fun u =>
        (stripField ofs entrezKey).bind fun e =>
          Except.ok (speciesFieldOk ofs && (!u.isEmpty || !e.isEmpty))) =
      .ok false
    rw [hu, he]
    show Except.ok (speciesFieldOk ofs && false) = Except.ok false
    rw [Bool.and_false]
  have hosIds : ∀ x ∈ os, orthologIdFieldsOk x = true := by
    have := hentries (g, JVal.jarr os) hmem
    exact fun x hx => List.all_eq_true.mp this x hx
  have hbadGene : geneEntryValid g (JVal.jarr os) = .ok false := by
    simp only [geneEntryValid]
    by_cases hg : (pyStrip g).isEmpty
    · rw [if_pos hg]
    · rw [if_neg hg]
      have hosne : os.isEmpty = false := by
        cases os with
        | nil => cases ho
        | cons a l => rfl
      rw [hosne]
      simp only [Bool.false_eq_true, if_false]
      exact validateOrthologs_mem_false os (JVal.jobj ofs) ho hbadOrtholog
        hosIds true
  have hval : validate_genes_config (JVal.jobj fs) = .ok false := by
    simp only [validate_genes_config]
    have hfsne : fs.isEmpty = false := by
      cases fs with
      | nil => cases hmem
      | cons a l => rfl
    rw [hfsne]
    simp only [Bool.false_eq_true, if_false]
    exact validateEntries_mem_false fs g (JVal.jarr os) hmem hbadGene
      hentries true
  refine ⟨hval, ?_⟩
  show (if !pyTruthy (JVal.jobj fs) then (⟨false, [], []⟩ : CollectRes)
    else match validate_genes_config (JVal.jobj fs) with
      | .error _ => ⟨false, [], []⟩
      | .ok false => ⟨false, [], []⟩
      | .ok true =>
          match JVal.jobj fs with
          | JVal.jobj fs => collectGenes fetchU fetchN writeOk fs [] []
          | _ => ⟨false, [], []⟩) = ⟨false, [], []⟩
  rw [hval]
  have hfsne : fs.isEmpty = false := by
    cases fs with
    | nil => cases hmem
    | cons a l => rfl
  simp [pyTruthy, hfsne]

/-- Witness for C7: a one-gene config whose single ortholog has only a
species field. -/
theorem missing_ids_fail_validation_before_network_witness :
    validate_genes_config
      (JVal.jobj [("GENE".toList, JVal.jarr
        [JVal.jobj [("species".toList, JVal.jstr "Human".toList)]])]) =
      .ok false ∧
    collect_orthologous_sequences
      (some (JVal.jobj [("GENE".toList, JVal.jarr
        [JVal.jobj [("species".toList, JVal.jstr "Human".toList)]])]))
      (fun _ => "SEQ".toList) (fun _ => "SEQ".toList) (fun _ => true) =
      ⟨false, [], []⟩ :=
  missing_ids_fail_validation_before_network
    [("GENE".toList, JVal.jarr
      [JVal.jobj [("species".toList, JVal.jstr "Human".toList)]])]
    "GENE".toList
    [JVal.jobj [("species".toList, JVal.jstr "Human".toList)]]
    [("species".toList, JVal.jstr "Human".toList)]
    (List.mem_singleton.mpr rfl) (List.mem_singleton.mpr rfl)
    rfl rfl rfl (fun _ => "SEQ".toList) (fun _ => "SEQ".toList) (fun _ => true)

/-! ## Collection-stage lemmas -/

/-- Folding the ortholog loop from an arbitrary accumulator shifts the
from-scratch result by that accumulator. -/
lemma collectGene_foldl_shift (fU fN : JVal → List Char) (l : List JVal) :
    ∀ (f0 : List Char) (n0 : Nat) (c0 : List FetchCall),
      l.foldl (fun acc o =>
          let r := procOrtholog fU fN o
          (acc.1 ++ r.1, acc.2.1 + (if r.1.isEmpty then 0 else 1),
            acc.2.2 ++ r.2))
        (f0, n0, c0) =
      (f0 ++ (collectGene fU fN l).1, n0 + (collectGene fU fN l).2.1,
        c0 ++ (collectGene fU fN l).2.2) := by
  induction l with
  | nil =>
      intro f0 n0 c0
      simp [collectGene]
  | cons o l ih =>
      intro f0 n0 c0
      simp only [collectGene, List.foldl_cons]
      rw [ih, ih]
      simp [List.append_assoc, Nat.add_assoc]

/-- The ortholog loop distributes over list append. -/
lemma collectGene_append (fU fN : JVal → List Char) (xs ys : List JVal) :
    collectGene fU fN (xs ++ ys) =
      ((collectGene fU fN xs).1 ++ (collectGene fU fN ys).1,
       (collectGene fU fN xs).2.1 + (collectGene fU fN ys).2.1,
       (collectGene fU fN xs).2.2 ++ (collectGene fU fN ys).2.2) := by
  simp only [collectGene, List.foldl_append]
  exact collectGene_foldl_shift fU fN ys
    (collectGene fU fN xs).1 (collectGene fU fN xs).2.1
    (collectGene fU fN xs).2.2

/-- C6: when the primary (UniProt) lookup is attempted and yields an empty
result and a non-empty Entrez id is present, the per-ortholog step issues
the secondary (NCBI) call and returns its result; in the gene loop a
non-empty secondary sequence is appended to the gene's blob and counted as
a retrieval, while an empty one just leaves this ortholog uncounted — in
both cases the rest of the gene's orthologs are still processed. -/
theorem secondary_id_fallback
    (fetchU fetchN : JVal → List Char) (ofs : List (List Char × JVal))
    (u e : List Char)
    (hup : jLookup ofs uniprotKey = some (JVal.jstr u)) (hune : u ≠ [])
    (hfu : fetchU (JVal.jstr u) = [])
    (hep : jLookup ofs entrezKey = some (JVal.jstr e)) (hene : e ≠ []) :
    procOrtholog fetchU fetchN (JVal.jobj ofs) =
      (fetchN (JVal.jstr e),
        [FetchCall.uni (JVal.jstr u), FetchCall.ncbi (JVal.jstr e)]) ∧
    ∀ pre post : List JVal,
      (collectGene fetchU fetchN (pre ++ JVal.jobj ofs :: post)).1 =
        (collectGene fetchU fetchN pre).1 ++ (fetchN (JVal.jstr e) ++
        (collectGene fetchU fetchN post).1) ∧
      (collectGene fetchU fetchN (pre ++ JVal.jobj ofs :: post)).2.1 =
        (collectGene fetchU fetchN pre).2.1 +
        ((if (fetchN (JVal.jstr e)).isEmpty then 0 else 1) +
        (collectGene fetchU fetchN post).2.1) := by
  have hu1 : pyEqStr (JVal.jstr u) [] = false := by
    simp only [pyEqStr]
    exact beq_eq_false_iff_ne.mpr hune
  have he1 : pyEqStr (JVal.jstr e) [] = false := by
    simp only [pyEqStr]
    exact beq_eq_false_iff_ne.mpr hene
  have hproc : procOrtholog fetchU fetchN (JVal.jobj ofs) =
      (fetchN (JVal.jstr e),
        [FetchCall.uni (JVal.jstr u), FetchCall.ncbi (JVal.jstr e)]) := by
    simp only [procOrtholog]
    rw [hup]
    simp only [hu1, Bool.not_false, if_true, hfu]
    rw [hep]
    simp [he1]
  refine ⟨hproc, ?_⟩
  intro pre post
  have hone : collectGene fetchU fetchN [JVal.jobj ofs] =
      (fetchN (JVal.jstr e),
        (if (fetchN (JVal.jstr e)).isEmpty then 0 else 1),
        [FetchCall.uni (JVal.jstr u), FetchCall.ncbi (JVal.jstr e)]) := by
    simp [collectGene, hproc]
  have hsplit : pre ++ JVal.jobj ofs :: post =
      (pre ++ [JVal.jobj ofs]) ++ post := by simp
  rw [hsplit, collectGene_append, collectGene_append, hone]
  constructor
  · simp [List.append_assoc]
  · simp [Nat.add_assoc]

/-- Witness for C6: the gene's blob picks up the NCBI sequence of an
ortholog whose UniProt id resolves to nothing. -/
theorem secondary_id_fallback_witness :
    procOrtholog (fun _ => []) (fun _ => "SEQ".toList)
      (JVal.jobj [("species".toList, JVal.jstr "Human".toList),
                  ("uniprot_id".toList, JVal.jstr "U0".toList),
                  ("entrez_protein_id".toList, JVal.jstr "E0".toList)]) =
      ("SEQ".toList,
        [FetchCall.uni (JVal.jstr "U0".toList),
         FetchCall.ncbi (JVal.jstr "E0".toList)]) ∧
    (collectGene (fun _ => []) (fun _ => "SEQ".toList)
      ([] ++ JVal.jobj [("species".toList, JVal.jstr "Human".toList),
                  ("uniprot_id".toList, JVal.jstr "U0".toList),
                  ("entrez_protein_id".toList, JVal.jstr "E0".toList)] :: [])).2.1 =
      (collectGene (fun _ => []) (fun _ => "SEQ".toList) []).2.1 +
        ((if ("SEQ".toList : List Char).isEmpty then 0 else 1) +
        (collectGene (fun _ => []) (fun _ => "SEQ".toList) []).2.1) :=
  ⟨(secondary_id_fallback (fun _ => []) (fun _ => "SEQ".toList)
      [("species".toList, JVal.jstr "Human".toList),
       ("uniprot_id".toList, JVal.jstr "U0".toList),
       ("entrez_protein_id".toList, JVal.jstr "E0".toList)]
      "U0".toList "E0".toList rfl (by decide) rfl rfl (by decide)).1,
   ((secondary_id_fallback (fun _ => []) (fun _ => "SEQ".toList)
      [("species".toList, JVal.jstr "Human".toList),
       ("uniprot_id".toList, JVal.jstr "U0".toList),
       ("entrez_protein_id".toList, JVal.jstr "E0".toList)]
      "U0".toList "E0".toList rfl (by decide) rfl rfl (by decide)).2 [] []).2⟩

/-- A config whose single gene has one ortholog with a valid id that the
network resolves to nothing: every gene fails sequence collection. -/
def cfgAllFail : JVal :=
  JVal.jobj [("GENE1".toList, JVal.jarr
    [JVal.jobj [("species".toList, JVal.jstr "Human".toList),
                ("uniprot_id".toList, JVal.jstr "P11111".toList)]])]

/-- C1 counterexample: on a valid config where zero genes produce any
sequence (both fetchers return empty for everything), the stage still
returns `True` — no gene file is written, the gene is merely skipped by
the `continue`, and the final `return True` is reached. -/
theorem collect_all_genes_fail_returns_true :
    validate_genes_config cfgAllFail = .ok true ∧
    collect_orthologous_sequences (some cfgAllFail) (fun _ => [])
      (fun _ => []) (fun _ => true) =
      ⟨true, [], [FetchCall.uni (JVal.jstr "P11111".toList)]⟩ := by
  constructor
  · rfl
  · rfl

/-- The gene loop returns `ok = true` whenever every file write
succeeds — whatever the per-gene retrieval counts are. -/
lemma collectGenes_ok_of_writes (fU fN : JVal → List Char)
    (w : List Char → Bool) (hw : ∀ g, w g = true) :
    ∀ (entries : List (List Char × JVal)) files calls,
      (collectGenes fU fN w entries files calls).ok = true := by
  intro entries
  induction entries with
  | nil => intro files calls; rfl
  | cons p rest ih =>
      intro files calls
      obtain ⟨g, v⟩ := p
      simp only [collectGenes]
      by_cases hn : (collectGene fU fN (asArr v)).2.1 = 0
      · rw [if_pos hn]
        exact ih _ _
      · rw [if_neg hn, hw g]
        simp only [if_true]
        exact ih _ _

/-- C1 amended: with all filesystem writes succeeding, the collection
stage returns false exactly when the config is missing (`none`), falsy,
or fails/aborts validation; per-gene failure — partial or even total
(zero sequences for every gene) — never makes the stage return false. -/
theorem collect_stage_failure_conditions (c : JVal)
    (fetchU fetchN : JVal → List Char) (writeOk : List Char → Bool)
    (hw : ∀ g, writeOk g = true) :
    ((collect_orthologous_sequences (some c) fetchU fetchN writeOk).ok = true ↔
      (pyTruthy c = true ∧ validate_genes_config c = .ok true)) ∧
    (collect_orthologous_sequences none fetchU fetchN writeOk).ok = false := by
  refine ⟨?_, rfl⟩
  cases c with
  | jobj fs =>
      by_cases hfs : fs.isEmpty
      · have hcfg : pyTruthy (JVal.jobj fs) = false := by
          simp [pyTruthy, hfs]
        simp [collect_orthologous_sequences, hcfg]
      · have hcfg : pyTruthy (JVal.jobj fs) = true := by
          simp [pyTruthy]
          exact fun hnil => hfs (by simp [hnil])
        have hval : validate_genes_config (JVal.jobj fs) =
            validateEntries true fs := by
          simp [validate_genes_config, hfs]
        cases hv : validateEntries true fs with
        | error e =>
            simp [collect_orthologous_sequences, hcfg, hval, hv]
        | ok b =>
            cases b
            · simp [collect_orthologous_sequences, hcfg, hval, hv]
            · simp [collect_orthologous_sequences, hcfg, hval, hv]
              exact collectGenes_ok_of_writes fetchU fetchN writeOk hw fs [] []
  | jnull => simp [collect_orthologous_sequences, pyTruthy]
  | jbool b =>
      cases b
      · simp [collect_orthologous_sequences, pyTruthy]
      · simp [collect_orthologous_sequences, pyTruthy, validate_genes_config]
  | jnum n =>
      by_cases hn : n = 0
      · simp [collect_orthologous_sequences, pyTruthy, hn]
      · simp [collect_orthologous_sequences, pyTruthy, hn,
          validate_genes_config]
  | jstr s =>
      by_cases hs : s.isEmpty
      · simp [collect_orthologous_sequences, pyTruthy, hs]
      · simp [collect_orthologous_sequences, pyTruthy, hs,
          validate_genes_config]
  | jarr xs =>
      by_cases hx : xs.isEmpty
      · simp [collect_orthologous_sequences, pyTruthy, hx]
      · simp [collect_orthologous_sequences, pyTruthy, hx,
          validate_genes_config]

/-- Witness for C1 (amended): a two-gene config where one gene succeeds
and one fails still returns true, writing only the succeeding gene's
file. -/
theorem collect_stage_failure_conditions_witness :
    (collect_orthologous_sequences (some (JVal.jobj
      [("G1".toList, JVal.jarr
         [JVal.jobj [("species".toList, JVal.jstr "Human".toList),
                     ("uniprot_id".toList, JVal.jstr "P1".toList)]]),
       ("G2".toList, JVal.jarr
         [JVal.jobj [("species".toList, JVal.jstr "Mouse".toList),
                     ("uniprot_id".toList, JVal.jstr "P2".toList)]])]))
      (fun v => if pyEqStr v "P1".toList then "SEQ1".toList else [])
      (fun _ => []) (fun _ => true)).ok = true :=
  (collect_stage_failure_conditions (JVal.jobj
      [("G1".toList, JVal.jarr
         [JVal.jobj [("species".toList, JVal.jstr "Human".toList),
                     ("uniprot_id".toList, JVal.jstr "P1".toList)]]),
       ("G2".toList, JVal.jarr
         [JVal.jobj [("species".toList, JVal.jstr "Mouse".toList),
                     ("uniprot_id".toList, JVal.jstr "P2".toList)]])])
      (fun v => if pyEqStr v "P1".toList then "SEQ1".toList else [])
      (fun _ => []) (fun _ => true) (fun _ => rfl)).1.mpr ⟨rfl, rfl⟩

/-! ## Conservation-scoring lemmas -/

/-- Two valid enumerations of the same column are permutations of each
other. -/
lemma validEnum_perm {col u1 u2 : List Char}
    (h1 : validEnum col u1) (h2 : validEnum col u2) : u1.Perm u2 :=
  (List.perm_ext_iff_of_nodup h1.1 h2.1).mpr
    (fun a => ⟨fun ha => h2.2.2 a (h1.2.1 a ha),
               fun ha => h1.2.2 a (h2.2.1 a ha)⟩)

/-- The Shannon entropy of a column does not depend on the enumeration
order of its distinct residues (in exact arithmetic). -/
lemma entropyOf_perm (col : List Char) {u1 u2 : List Char} (h : u1.Perm u2) :
    entropyOf col u1 = entropyOf col u2 := by
  unfold entropyOf colFreqs
  exact congrArg abs (congrArg Neg.neg
    (List.Perm.sum_eq (List.Perm.map _ (List.Perm.filter _ (List.Perm.map _ h)))))

/-- Python's `max(..., key=...)` fold returns the strict maximum when one
exists, whatever the iteration order. -/
lemma foldl_max_strict (key : Char → Nat) (xs : List Char) :
    ∀ (x m : Char), (m = x ∨ m ∈ xs) →
      (∀ y, (y = x ∨ y ∈ xs) → y ≠ m → key y < key m) →
      xs.foldl (fun b c => if key b < key c then c else b) x = m := by
  induction xs with
  | nil =>
      intro x m hm hstrict
      rcases hm with hm | hm
      · simp [hm]
      · cases hm
  | cons c cs ih =>
      intro x m hm hstrict
      simp only [List.foldl_cons]
      apply ih
      · rcases hm with hm | hm
        · left
          by_cases hc : key x < key c
          · rw [if_pos hc]
            by_cases hcm : c = m
            · exact hcm.symm
            · have h1 := hstrict c (Or.inr (List.mem_cons_self c cs)) hcm
              exfalso
              rw [hm] at h1
              omega
          · rw [if_neg hc]
            exact hm
        · rcases List.mem_cons.mp hm with hm | hm
          · left
            by_cases hx : key x < key c
            · rw [if_pos hx]
              exact hm
            · rw [if_neg hx]
              by_cases hxm : x = m
              · exact hxm.symm
              · have h1 := hstrict x (Or.inl rfl) hxm
                exfalso
                rw [hm] at h1
                omega
          · right
            exact hm
      · intro y hy hym
        rcases hy with hy | hy
        · by_cases hxc : key x < key c
          · rw [if_pos hxc] at hy
            exact hstrict y (Or.inr (by rw [hy]; exact List.mem_cons_self c cs)) hym
          · rw [if_neg hxc] at hy
            exact hstrict y (Or.inl hy) hym
        · exact hstrict y (Or.inr (List.mem_cons_of_mem c hy)) hym

/-- `pyMaxBy` returns the strict maximum when one exists. -/
lemma pyMaxBy_strict (key : Char → Nat) (v : List Char) (m : Char)
    (hm : m ∈ v) (h : ∀ y ∈ v, y ≠ m → key y < key m) :
    pyMaxBy key v = some m := by
  cases v with
  | nil => cases hm
  | cons x xs =>
      simp only [pyMaxBy, Option.some.injEq]
      apply foldl_max_strict key xs x m
      · exact List.mem_cons.mp hm
      · intro y hy hym
        rcases hy with hy | hy
        · exact h y (by rw [hy]; exact List.mem_cons_self x xs) hym
        · exact h y (List.mem_cons_of_mem x hy) hym

/-- A duplicate-free list whose members are all one character is that
singleton. -/
lemma nodup_single_mem {u : List Char} {a : Char} (hn : u.Nodup)
    (hmem : a ∈ u) (hall : ∀ c ∈ u, c = a) : u = [a] := by
  cases u with
  | nil => cases hmem
  | cons x xs =>
      have hx : x = a := hall x (List.mem_cons_self x xs)
      subst hx
      cases xs with
      | nil => rfl
      | cons y ys =>
          exfalso
          have hy : y = x := hall y (by simp)
          exact (List.nodup_cons.mp hn).1
            (List.mem_cons.mpr (Or.inl hy.symm))

/-- A non-empty column with a single distinct symbol has entropy exactly
zero, for every valid enumeration. -/
lemma entropyOf_single (col : List Char) (a : Char) (hne : col ≠ [])
    (hall : ∀ c ∈ col, c = a) (u : List Char) (hu : validEnum col u) :
    entropyOf col u = 0 := by
  have hamem : a ∈ col := by
    cases col with
    | nil => exact absurd rfl hne
    | cons x xs =>
        rw [← hall x (List.mem_cons_self x xs)]
        exact List.mem_cons_self x xs
  have hu1 : u = [a] :=
    nodup_single_mem hu.1 (hu.2.2 a hamem) (fun c hc => hall c (hu.2.1 c hc))
  subst hu1
  unfold entropyOf colFreqs
  have hcount : col.count a = col.length :=
    List.count_eq_length.mpr (fun b hb => (hall b hb).symm)
  have hlen : (col.length : ℚ) ≠ 0 := by
    simp only [ne_eq, Nat.cast_eq_zero]
    exact fun h0 => hne (List.length_eq_zero.mp h0)
  simp [hcount, div_self hlen, Real.logb_one]

/-- C8: an all-gap column (non-empty, every character the gap symbol)
scores `entropy_with_gaps = 0`, `entropy_no_gaps = 0` and consensus `-`,
for any valid set enumerations; more generally, every non-empty column
with a single distinct symbol has with-gaps entropy exactly 0. -/
theorem all_gap_column_scores (col : List Char) (hne : col ≠ [])
    (hall : ∀ c ∈ col, c = gapChar) (uf un : List Char)
    (huf : validEnum col uf)
    (_hun : validEnum (col.filter (fun c => c != gapChar)) un) :
    (conservationRow col uf un).entropyWithGaps = 0 ∧
    (conservationRow col uf un).entropyNoGaps = 0 ∧
    (conservationRow col uf un).consensus = gapChar ∧
    ∀ (col2 : List Char) (a : Char), col2 ≠ [] → (∀ c ∈ col2, c = a) →
      ∀ u2, validEnum col2 u2 → entropyOf col2 u2 = 0 := by
  have hfilter : col.filter (fun c => c != gapChar) = [] := by
    apply List.filter_eq_nil_iff.mpr
    intro c hc
    simp [hall c hc]
  have hlen : ¬ col.length = 0 :=
    fun h0 => hne (List.length_eq_zero.mp h0)
  have hew : entropyOf col uf = 0 :=
    entropyOf_single col gapChar hne hall uf huf
  refine ⟨?_, ?_, ?_,
    fun col2 a h1 h2 u2 hu2 => entropyOf_single col2 a h1 h2 u2 hu2⟩
  · simp only [conservationRow]
    rw [hfilter]
    simp [hlen, hew]
  · simp only [conservationRow]
    rw [hfilter]
    simp [hlen]
  · simp only [conservationRow]
    rw [hfilter]
    simp [hlen]

/-- Witness for C8: a three-sequence all-gap column. -/
theorem all_gap_column_scores_witness :
    (conservationRow ['-', '-', '-'] ['-'] []).entropyWithGaps = 0 ∧
    (conservationRow ['-', '-', '-'] ['-'] []).entropyNoGaps = 0 ∧
    (conservationRow ['-', '-', '-'] ['-'] []).consensus = gapChar := by
  have h := all_gap_column_scores ['-', '-', '-'] (by decide) (by decide)
    ['-'] [] (by decide) (by decide)
  exact ⟨h.1, h.2.1, h.2.2.1⟩

/-- C2 counterexample: on the column `AC` (a frequency tie), two valid
iteration orders of `set(column)` give different consensus residues — the
CSV consensus is the first maximal element in set order, and Python does
not fix that order across runs (string-hash randomisation), so repeated
runs are not guaranteed byte-identical on tied columns. -/
theorem consensus_tie_depends_on_set_order :
    validEnum (['A', 'C'].filter (fun c => c != gapChar)) ['A', 'C'] ∧
    validEnum (['A', 'C'].filter (fun c => c != gapChar)) ['C', 'A'] ∧
    (conservationRow ['A', 'C'] ['A', 'C'] ['A', 'C']).consensus ≠
      (conservationRow ['A', 'C'] ['A', 'C'] ['C', 'A']).consensus := by
  refine ⟨by decide, by decide, ?_⟩
  have h1 : (conservationRow ['A', 'C'] ['A', 'C'] ['A', 'C']).consensus = 'A' := rfl
  have h2 : (conservationRow ['A', 'C'] ['A', 'C'] ['C', 'A']).consensus = 'C' := rfl
  rw [h1, h2]
  decide

/-- C2 amended: `compute_conservation_scores` is deterministic up to the
`set` iteration order: both entropy columns are independent of the
enumerations (in exact arithmetic), and the consensus residue is too
whenever the gap-free column has a strictly most frequent residue; only a
frequency tie lets the consensus depend on the iteration order, which
Python does not fix across interpreter runs. -/
theorem conservation_deterministic_upto_enum
    (col u1 u2 v1 v2 : List Char)
    (hu1 : validEnum col u1) (hu2 : validEnum col u2)
    (hv1 : validEnum (col.filter (fun c => c != gapChar)) v1)
    (hv2 : validEnum (col.filter (fun c => c != gapChar)) v2) :
    (conservationRow col u1 v1).entropyWithGaps =
      (conservationRow col u2 v2).entropyWithGaps ∧
    (conservationRow col u1 v1).entropyNoGaps =
      (conservationRow col u2 v2).entropyNoGaps ∧
    ((∃ m ∈ col.filter (fun c => c != gapChar),
        ∀ c ∈ col.filter (fun c => c != gapChar), c ≠ m →
          (col.filter (fun c => c != gapChar)).count c <
            (col.filter (fun c => c != gapChar)).count m) →
      (conservationRow col u1 v1).consensus =
        (conservationRow col u2 v2).consensus) := by
  have hew : entropyOf col u1 = entropyOf col u2 :=
    entropyOf_perm col (validEnum_perm hu1 hu2)
  have hen : entropyOf (col.filter (fun c => c != gapChar)) v1 =
      entropyOf (col.filter (fun c => c != gapChar)) v2 :=
    entropyOf_perm _ (validEnum_perm hv1 hv2)
  by_cases hLnil : (col.filter (fun c => c != gapChar)).length = 0
  · simp only [conservationRow]
    rw [if_pos hLnil, if_pos hLnil]
    refine ⟨?_, rfl, fun _ => rfl⟩
    by_cases hc : col.length = 0
    · rw [if_pos hc, if_pos hc]
    · rw [if_neg hc, if_neg hc, hew]
  · have hLne : col.filter (fun c => c != gapChar) ≠ [] :=
      fun h => hLnil (by rw [h]; rfl)
    obtain ⟨x, hx⟩ := List.exists_mem_of_ne_nil _ hLne
    have hv1ne : v1 ≠ [] := by
      intro h
      rw [h] at hv1
      exact absurd (hv1.2.2 x hx) (List.not_mem_nil x)
    have hv2ne : v2 ≠ [] := by
      intro h
      rw [h] at hv2
      exact absurd (hv2.2.2 x hx) (List.not_mem_nil x)
    obtain ⟨m1, hm1⟩ : ∃ m, pyMaxBy
        (fun a => (col.filter (fun c => c != gapChar)).count a) v1 = some m := by
      cases v1 with
      | nil => exact absurd rfl hv1ne
      | cons a l => exact ⟨_, rfl⟩
    obtain ⟨m2, hm2⟩ : ∃ m, pyMaxBy
        (fun a => (col.filter (fun c => c != gapChar)).count a) v2 = some m := by
      cases v2 with
      | nil => exact absurd rfl hv2ne
      | cons a l => exact ⟨_, rfl⟩
    simp only [conservationRow]
    rw [if_neg hLnil, if_neg hLnil, hm1, hm2]
    refine ⟨?_, hen, ?_⟩
    · by_cases hc : col.length = 0
      · rw [if_pos hc, if_pos hc]
      · rw [if_neg hc, if_neg hc, hew]
    · rintro ⟨m, hmmem, hstrict⟩
      have h1 : pyMaxBy
          (fun a => (col.filter (fun c => c != gapChar)).count a) v1 = some m :=
        pyMaxBy_strict _ v1 m (hv1.2.2 m hmmem)
          (fun y hy hym => hstrict y (hv1.2.1 y hy) hym)
      have h2 : pyMaxBy
          (fun a => (col.filter (fun c => c != gapChar)).count a) v2 = some m :=
        pyMaxBy_strict _ v2 m (hv2.2.2 m hmmem)
          (fun y hy hym => hstrict y (hv2.2.1 y hy) hym)
      rw [hm1] at h1
      rw [hm2] at h2
      rw [Option.some.injEq] at h1 h2
      rw [h1, h2]

/-- Witness for C2 (amended): the column `AAC` has the strict majority
residue `A`; two different enumerations agree on everything. -/
theorem conservation_deterministic_upto_enum_witness :
    (conservationRow ['A', 'A', 'C'] ['A', 'C'] ['A', 'C']).entropyWithGaps =
      (conservationRow ['A', 'A', 'C'] ['C', 'A'] ['C', 'A']).entropyWithGaps ∧
    (conservationRow ['A', 'A', 'C'] ['A', 'C'] ['A', 'C']).entropyNoGaps =
      (conservationRow ['A', 'A', 'C'] ['C', 'A'] ['C', 'A']).entropyNoGaps ∧
    (conservationRow ['A', 'A', 'C'] ['A', 'C'] ['A', 'C']).consensus =
      (conservationRow ['A', 'A', 'C'] ['C', 'A'] ['C', 'A']).consensus := by
  have h := conservation_deterministic_upto_enum ['A', 'A', 'C']
    ['A', 'C'] ['C', 'A'] ['A', 'C'] ['C', 'A']
    (by decide) (by decide) (by decide) (by decide)
  exact ⟨h.1, h.2.1, h.2.2 (by decide)⟩

end CGP
